import Mathlib

/-!
# Verification of the wsdlgo encoder (WSDL-to-Go code generation)

A shallow embedding of the schema-resolution and code-generation engine of
the `wsdlgo` package: import resolution with its already-fetched set, the
type registries and their sorted iteration, the complex-type flattener,
the SOAP template dispatch, and the top-level `Encode` driver.  Each
definition mirrors the corresponding Go function; Go maps are embedded as
association lists whose list order models map iteration order, and the
unbounded recursion of the import resolver and flattener is made total
with an explicit fuel argument.
-/

namespace Wsdlgo

/-- Everything after the first occurrence of `c`, when there is one.
(Char-level so that the kernel can evaluate it.) -/
def dropThroughChar (c : Char) : List Char → Option (List Char)
  | [] => none
  | x :: xs => if x = c then some xs else dropThroughChar c xs

/-- Embeds `trimns` (strings.SplitN(s, ":", 2): everything after the first
colon, or the string itself when it has no colon). -/
def trimns (s : String) : String :=
  match dropThroughChar ':' s.data with
  | some rest => String.mk rest
  | none => s

/-- Splitting on a single-character separator (strings.Split with a
one-character separator), char-level. -/
def splitOnCharAux (sep : Char) : List Char → List Char → List String
  | [], acc => [String.mk acc.reverse]
  | c :: cs, acc =>
    if c = sep then String.mk acc.reverse :: splitOnCharAux sep cs []
    else splitOnCharAux sep cs (c :: acc)

def splitOnChar (sep : Char) (s : String) : List String :=
  splitOnCharAux sep s.data []

/-- The whitespace class of strings.TrimSpace (ASCII part). -/
def isGoSpace (c : Char) : Bool :=
  c = ' ' || c = '\t' || c = '\n' || c = '\x0d' || c = '\x0b' || c = '\x0c'

/-- Embeds strings.TrimSpace, char-level. -/
def trimSpace (s : String) : String :=
  String.mk (((s.data.dropWhile isGoSpace).reverse.dropWhile isGoSpace).reverse)

/-- Keys of an association list in its iteration order.  An association
list `List (String × α)` embeds a Go `map[string]α`; the list order is
the (arbitrary) iteration order of the map. -/
def mapKeys {α : Type} (m : List (String × α)) : List String :=
  m.map (·.1)

/-- Lookup in an embedded Go map. -/
def mapLookup {α : Type} (m : List (String × α)) (k : String) : Option α :=
  (m.find? (fun p => p.1 = k)).map (·.2)

/-- Embeds `sort.Strings`: the keys of a catalog in lexicographic order.
`sortedSimpleTypes`, `sortedComplexTypes`, `sortedOperations` and the
`funcnames` construction in `cacheFuncs` all collect the keys of a map
and sort them with `sort.Strings`. -/
def sortStrings (keys : List String) : List String :=
  keys.insertionSort (· ≤ ·)

/-- Embeds `sortedSimpleTypes` on the key set of `ge.stypes`. -/
def sortedSimpleTypes {α : Type} (stypes : List (String × α)) : List String :=
  sortStrings (mapKeys stypes)

/-- Embeds `sortedComplexTypes` on the key set of `ge.ctypes`. -/
def sortedComplexTypes {α : Type} (ctypes : List (String × α)) : List String :=
  sortStrings (mapKeys ctypes)

/-- Embeds `sortedOperations` on the key set of `ge.soapOps`. -/
def sortedOperations {α : Type} (soapOps : List (String × α)) : List String :=
  sortStrings (mapKeys soapOps)

/-- Embeds the `funcnames` construction of `cacheFuncs`: the keys of
`ge.funcs`, sorted. -/
def funcnames {α : Type} (funcs : List (String × α)) : List String :=
  sortStrings (mapKeys funcs)

/-- Go `%q` on an import path (no escaping needed for path characters). -/
def goQuote (s : String) : String := "\"" ++ s ++ "\""

/-- Embeds the header written by `encode` (package clause and import
block).  `stdPkgs` and `extPkgs` are the iteration orders of the
`ge.needsStdPkg` and `ge.needsExtPkg` maps: the Go code writes them with
`for pkg := range ge.needsStdPkg`, i.e. in map iteration order. -/
def encodeHeader (packageName : String) (stdPkgs extPkgs : List String) : String :=
  "package " ++ packageName ++ "\n\nimport (\n"
    ++ String.join (stdPkgs.map (fun pkg => goQuote pkg ++ "\n"))
    ++ (if stdPkgs.length > 0 then "\n" else "")
    ++ String.join (extPkgs.map (fun pkg => goQuote pkg ++ "\n"))
    ++ ")\n\n"

theorem sortStrings_sorted (l : List String) : (sortStrings l).Sorted (· ≤ ·) :=
  List.sorted_insertionSort _ l

theorem sortStrings_perm (l : List String) : (sortStrings l).Perm l :=
  List.perm_insertionSort _ l

/-- Two iteration orders of the same catalog sort to the same key list. -/
theorem sortStrings_eq_of_perm {l₁ l₂ : List String} (h : l₁.Perm l₂) :
    sortStrings l₁ = sortStrings l₂ :=
  List.eq_of_perm_of_sorted
    (((sortStrings_perm l₁).trans h).trans (sortStrings_perm l₂).symm)
    (sortStrings_sorted l₁) (sortStrings_sorted l₂)

/-- C1, counterexample.  The import block written by `encode` iterates the
`needsStdPkg` map with `for pkg := range`, i.e. in map iteration order.
`["context", "encoding/xml"]` and `["encoding/xml", "context"]` are two
iteration orders of the same two-key map, yet the emitted header bytes
differ, so the byte sequence produced by the encoder itself (the input it
hands to the external formatter) is not identical across runs. -/
theorem encodeHeader_order_dependent :
    List.Perm ["context", "encoding/xml"] ["encoding/xml", "context"] ∧
    encodeHeader "ws" ["context", "encoding/xml"] []
      ≠ encodeHeader "ws" ["encoding/xml", "context"] [] := by
  constructor
  · decide
  · decide

/-- C1, amended.  Every catalog traversal that feeds declaration emission
(`sortedSimpleTypes`, `sortedComplexTypes`, `sortedOperations`, and the
`funcnames` list driving interface and client-function emission) yields
the same sorted key sequence for any two iteration orders of the same
catalog, so type and operation declarations appear in a deterministic
order; the import block, by contrast, is order sensitive
(`encodeHeader_order_dependent`). -/
theorem sorted_catalog_traversals_deterministic
    {α β γ δ : Type}
    (s₁ s₂ : List (String × α)) (c₁ c₂ : List (String × β))
    (o₁ o₂ : List (String × γ)) (f₁ f₂ : List (String × δ))
    (hs : (mapKeys s₁).Perm (mapKeys s₂)) (hc : (mapKeys c₁).Perm (mapKeys c₂))
    (ho : (mapKeys o₁).Perm (mapKeys o₂)) (hf : (mapKeys f₁).Perm (mapKeys f₂)) :
    sortedSimpleTypes s₁ = sortedSimpleTypes s₂ ∧
    sortedComplexTypes c₁ = sortedComplexTypes c₂ ∧
    sortedOperations o₁ = sortedOperations o₂ ∧
    funcnames f₁ = funcnames f₂ :=
  ⟨sortStrings_eq_of_perm hs, sortStrings_eq_of_perm hc,
   sortStrings_eq_of_perm ho, sortStrings_eq_of_perm hf⟩

/-- C1, witness: the deterministic-traversal theorem applied to two
concrete iteration orders of the same catalogs. -/
theorem sorted_catalog_traversals_deterministic_witness :
    sortedSimpleTypes [("b", 0), ("a", 1)] = sortedSimpleTypes [("a", 1), ("b", 0)] ∧
    sortedComplexTypes [("y", 2), ("x", 3)] = sortedComplexTypes [("x", 3), ("y", 2)] ∧
    sortedOperations [("q", 4)] = sortedOperations [("q", 4)] ∧
    funcnames [("m", 5), ("n", 6)] = funcnames [("n", 6), ("m", 5)] :=
  sorted_catalog_traversals_deterministic
    [("b", 0), ("a", 1)] [("a", 1), ("b", 0)]
    [("y", 2), ("x", 3)] [("x", 3), ("y", 2)]
    [("q", 4)] [("q", 4)]
    [("m", 5), ("n", 6)] [("n", 6), ("m", 5)]
    (by decide) (by decide) (by decide) (by decide)

/-! ## Import resolver (`importParts`, `importRoot`, `importSchema`,
`includeImport`, `importRemote`)

The transport and the XML decoder are abstracted into a `World`: `isHttp`
is the scheme test of `url.Parse` (http/https versus local file), and
`fetch` is the combined outcome of retrieving and decoding one location.
The resolver state carries the `importedSchemas` set and a log of the
fetch events actually issued (`http.Get` or `os.Open`), in order. -/

/-- Outcome of retrieving and decoding one location. -/
inductive FetchOutcome where
  | fetchError
  | decodeError
  | ok (imports : List String) (includes : List String)
deriving DecidableEq

structure World where
  isHttp : String → Bool
  fetch : String → FetchOutcome

structure RState where
  imported : List String
  log : List String
deriving DecidableEq

inductive ResolveRes where
  | ok
  | err
  | fuelOut
deriving DecidableEq

/-- Embeds `importRemote`.  The early return when the location is already
in `importedSchemas` decodes nothing, so the caller sees an empty
fragment.  For http/https the fetch is issued, and only then is the
location marked as imported (a transport error returns before the mark; a
decode error returns after it).  For any other scheme the file is opened
and decoded but the location is never added to `importedSchemas`. -/
def importRemote (w : World) (st : RState) (loc : String) :
    RState × Except Unit (List String × List String) :=
  if st.imported.contains loc then (st, .ok ([], []))
  else if w.isHttp loc then
    match w.fetch loc with
    | .fetchError => (⟨st.imported, st.log ++ [loc]⟩, .error ())
    | .decodeError => (⟨st.imported ++ [loc], st.log ++ [loc]⟩, .error ())
    | .ok imps incs => (⟨st.imported ++ [loc], st.log ++ [loc]⟩, .ok (imps, incs))
  else
    match w.fetch loc with
    | .fetchError => (⟨st.imported, st.log ++ [loc]⟩, .error ())
    | .decodeError => (⟨st.imported, st.log ++ [loc]⟩, .error ())
    | .ok imps incs => (⟨st.imported, st.log ++ [loc]⟩, .ok (imps, incs))

/-- Embeds `includeImport`.  A blank or already-imported location is
skipped; a failed `importRemote` is an error; the recursive resolution of
the fragment's own imports and includes discards the recursive calls'
error results exactly as the source does (their returned `error` is not
checked).  The fuel argument makes the unbounded Go recursion total;
exhausting it is reported as `fuelOut` and propagated. -/
def includeImport (w : World) : Nat → RState → String → RState × ResolveRes
  | 0, st, _ => (st, .fuelOut)
  | fuel + 1, st, loc =>
    if loc = "" || st.imported.contains loc then (st, .ok)
    else
      match importRemote w st loc with
      | (st', .error _) => (st', .err)
      | (st', .ok (imps, incs)) =>
        let step := fun (acc : RState × Bool) l =>
          let r := includeImport w fuel acc.1 l
          (r.1, acc.2 || decide (r.2 = ResolveRes.fuelOut))
        let acc := imps.foldl step (st', false)
        let acc := incs.foldl step acc
        (acc.1, if acc.2 then .fuelOut else .ok)

/-- Embeds `importRoot`: each root-document import is resolved with
`importRemote`, and its error aborts the loop. -/
def importRoot (w : World) (st : RState) (rootImports : List String) :
    RState × ResolveRes :=
  rootImports.foldl
    (fun acc loc =>
      match acc with
      | (st, ResolveRes.ok) =>
        if loc = "" then (st, ResolveRes.ok)
        else
          match importRemote w st loc with
          | (st', .error _) => (st', ResolveRes.err)
          | (st', .ok _) => (st', ResolveRes.ok)
      | other => other)
    (st, ResolveRes.ok)

/-- Embeds `importSchema`: each import then each include of the root
schema goes through `includeImport`, whose error aborts the loop. -/
def importSchema (w : World) (fuel : Nat) (st : RState)
    (schemaImports schemaIncludes : List String) : RState × ResolveRes :=
  (schemaImports ++ schemaIncludes).foldl
    (fun acc loc =>
      match acc with
      | (st, ResolveRes.ok) => includeImport w fuel st loc
      | other => other)
    (st, ResolveRes.ok)

/-- Embeds `importParts`: `importRoot` then `importSchema`. -/
def importParts (w : World) (fuel : Nat) (st : RState) (rootImports : List String)
    (schemaImports schemaIncludes : List String) : RState × ResolveRes :=
  match importRoot w st rootImports with
  | (st', ResolveRes.ok) => importSchema w fuel st' schemaImports schemaIncludes
  | other => other

/-- A two-node cyclic import graph whose locations are local files
(scheme is not http/https): A imports B, B imports A. -/
def fileCycleWorld : World where
  isHttp := fun _ => false
  fetch := fun loc =>
    if loc = "A" then .ok ["B"] []
    else if loc = "B" then .ok ["A"] []
    else .fetchError

/-- The same cyclic graph served over http. -/
def httpCycleWorld : World where
  isHttp := fun _ => true
  fetch := fun loc =>
    if loc = "A" then .ok ["B"] []
    else if loc = "B" then .ok ["A"] []
    else .ok [] []

def emptyRState : RState := ⟨[], []⟩

/-- Resolver-state invariant: no location has been fetched twice, and
every fetched location has been recorded in the already-fetched set. -/
def RInv (st : RState) : Prop :=
  st.log.Nodup ∧ ∀ l ∈ st.log, l ∈ st.imported

/-- C2, counterexample.  On the local-file cycle A imports B imports A,
location "A" is opened twice within one run (the already-fetched set is
never updated for non-http locations), and resolution is still unfinished
when the fuel runs out — with unbounded fuel, i.e. in the Go original, it
does not terminate. -/
theorem includeImport_file_cycle_refetches :
    ((includeImport fileCycleWorld 4 emptyRState "A").1.log.count "A" = 2) ∧
    (includeImport fileCycleWorld 4 emptyRState "A").2 = ResolveRes.fuelOut := by
  constructor
  · decide
  · decide

/-- The loop body of the recursive resolution inside `includeImport`,
named for reasoning; `includeImport_succ` identifies it with the inline
fold of the definition. -/
def includeStep (w : World) (fuel : Nat) (acc : RState × Bool) (l : String) :
    RState × Bool :=
  ((includeImport w fuel acc.1 l).1,
    acc.2 || decide ((includeImport w fuel acc.1 l).2 = ResolveRes.fuelOut))

theorem includeImport_succ (w : World) (fuel : Nat) (st : RState) (loc : String) :
    includeImport w (fuel + 1) st loc =
      if loc = "" || st.imported.contains loc then (st, .ok)
      else
        match importRemote w st loc with
        | (st', .error _) => (st', .err)
        | (st', .ok (imps, incs)) =>
          let acc := incs.foldl (includeStep w fuel) (imps.foldl (includeStep w fuel) (st', false))
          (acc.1, if acc.2 then .fuelOut else .ok) := rfl

theorem importRemote_RInv {w : World}
    (hhttp : ∀ loc, w.isHttp loc = true)
    (hfetch : ∀ loc, w.fetch loc ≠ FetchOutcome.fetchError)
    (st : RState) (loc : String) (h : RInv st) :
    RInv (importRemote w st loc).1 := by
  obtain ⟨hnd, hsub⟩ := h
  unfold importRemote
  by_cases hc : st.imported.contains loc = true
  · simp only [hc, if_true]
    exact ⟨hnd, hsub⟩
  · have hmem : loc ∉ st.imported := by
      intro hm
      exact hc (List.elem_eq_true_of_mem hm)
    have hlog : loc ∉ st.log := fun hl => hmem (hsub loc hl)
    have hnd' : (st.log ++ [loc]).Nodup := by
      simp [List.nodup_append, hnd, hlog]
    have hsub' : ∀ l ∈ st.log ++ [loc], l ∈ st.imported ++ [loc] := by
      intro l hl
      rcases List.mem_append.mp hl with h1 | h1
      · exact List.mem_append.mpr (Or.inl (hsub l h1))
      · exact List.mem_append.mpr (Or.inr h1)
    simp only [hc, hhttp loc, if_true, Bool.false_eq_true, if_false]
    cases hf : w.fetch loc with
    | fetchError => exact absurd hf (hfetch loc)
    | decodeError => exact ⟨hnd', hsub'⟩
    | ok imps incs => exact ⟨hnd', hsub'⟩

theorem includeImport_RInv {w : World}
    (hhttp : ∀ loc, w.isHttp loc = true)
    (hfetch : ∀ loc, w.fetch loc ≠ FetchOutcome.fetchError) :
    ∀ (fuel : Nat) (st : RState) (loc : String),
      RInv st → RInv (includeImport w fuel st loc).1 := by
  intro fuel
  induction fuel with
  | zero =>
    intro st loc h
    simpa [includeImport] using h
  | succ n ih =>
    have hfold : ∀ (ls : List String) (acc : RState × Bool),
        RInv acc.1 → RInv ((ls.foldl (includeStep w n) acc).1) := by
      intro ls
      induction ls with
      | nil => intro acc h; exact h
      | cons x xs ihx =>
        intro acc hacc
        simp only [List.foldl_cons]
        exact ihx _ (ih acc.1 x hacc)
    intro st loc h
    rw [includeImport_succ]
    by_cases hguard : (decide (loc = "") || st.imported.contains loc) = true
    · simp only [hguard, if_true]
      exact h
    · simp only [hguard, if_false]
      rcases hrem : importRemote w st loc with ⟨st', res⟩
      have hst' : RInv st' := by
        have h2 := importRemote_RInv hhttp hfetch st loc h
        rwa [hrem] at h2
      cases res with
      | error e => exact hst'
      | ok pr =>
        rcases pr with ⟨imps, incs⟩
        exact hfold incs _ (hfold imps (st', false) hst')

/-- C2, amended.  For worlds in which every location is http/https and
every issued fetch comes back (the body may still fail to decode), no
location is ever fetched twice in one run — the already-fetched set is
consulted before and updated after each fetch — and on the concrete
cyclic graph A imports B imports A the resolution terminates, fetching
each location exactly once.  Locations with any other scheme (local
files) are exempt from the amended statement: `importRemote` never adds
them to the already-fetched set (`includeImport_file_cycle_refetches`). -/
theorem includeImport_http_fetches_once_and_cycle_terminates :
    (∀ (w : World), (∀ loc, w.isHttp loc = true) →
      (∀ loc, w.fetch loc ≠ FetchOutcome.fetchError) →
      ∀ (fuel : Nat) (st : RState) (loc : String), RInv st →
        (includeImport w fuel st loc).1.log.Nodup) ∧
    includeImport httpCycleWorld 3 emptyRState "A"
      = (⟨["A", "B"], ["A", "B"]⟩, ResolveRes.ok) := by
  constructor
  · intro w hhttp hfetch fuel st loc h
    exact (includeImport_RInv hhttp hfetch fuel st loc h).1
  · decide

/-- C2, witness: the http at-most-once-fetch theorem applied to the
concrete http cyclic world from an empty resolver state. -/
theorem includeImport_http_fetches_once_witness :
    (includeImport httpCycleWorld 5 emptyRState "A").1.log.Nodup :=
  includeImport_http_fetches_once_and_cycle_terminates.1 httpCycleWorld
    (fun _ => rfl)
    (by
      intro loc
      show (if loc = "A" then FetchOutcome.ok ["B"] []
            else if loc = "B" then FetchOutcome.ok ["A"] []
            else FetchOutcome.ok [] []) ≠ FetchOutcome.fetchError
      split
      · simp
      · split <;> simp)
    5 emptyRState "A" ⟨List.nodup_nil, by simp [emptyRState]⟩

/-- A world in which the root schema's only import "L1" resolves to a
fragment that itself imports "L2", and fetching "L2" fails. -/
def transFailWorld : World where
  isHttp := fun _ => true
  fetch := fun loc =>
    if loc = "L1" then .ok ["L2"] []
    else .fetchError

/-- C3, counterexample.  "L2" is listed by the transitively imported
fragment "L1" and cannot be retrieved (the fetch was attempted: it is in
the log), yet `importParts` reports success: `includeImport` discards the
error results of its recursive calls, so only failures at depth one abort
the run. -/
theorem importParts_transitive_failure_ignored :
    transFailWorld.fetch "L2" = FetchOutcome.fetchError ∧
    "L2" ∈ (importParts transFailWorld 5 emptyRState [] ["L1"] []).1.log ∧
    (importParts transFailWorld 5 emptyRState [] ["L1"] []).2 = ResolveRes.ok := by
  refine ⟨rfl, by decide, by decide⟩

/-- C3, amended.  A location that cannot be retrieved aborts the run with
an error when it is listed directly: by the root schema
(`importSchema`/`includeImport` propagate the `importRemote` error) or by
the root document (`importRoot` propagates it).  Failures of locations
listed only by transitively imported fragments are silently ignored
(`importParts_transitive_failure_ignored`). -/
theorem direct_import_failure_aborts (w : World) (st : RState) (loc : String)
    (fuel : Nat) (hf : w.fetch loc = FetchOutcome.fetchError) (hne : loc ≠ "")
    (hmem : loc ∉ st.imported) :
    (importSchema w (fuel + 1) st [loc] []).2 = ResolveRes.err ∧
    (importRoot w st [loc]).2 = ResolveRes.err := by
  have hcon : st.imported.contains loc = false := by
    rw [Bool.eq_false_iff]
    exact fun h => hmem (List.mem_of_elem_eq_true h)
  constructor
  · show (List.foldl _ (st, ResolveRes.ok) ([loc] ++ [])).2 = ResolveRes.err
    simp only [List.append_nil, List.foldl_cons, List.foldl_nil]
    show (includeImport w (fuel + 1) st loc).2 = ResolveRes.err
    rw [includeImport_succ]
    simp only [hne, decide_eq_true_eq, decide_eq_false_iff_not, not_false_iff,
      hcon, Bool.or_false, decide_eq_false hne, if_false, Bool.false_eq_true]
    unfold importRemote
    simp only [hcon, Bool.false_eq_true, if_false]
    by_cases hh : w.isHttp loc = true
    · simp [hh, hf]
    · simp only [hh, Bool.false_eq_true, if_false]
      cases hb : w.isHttp loc
      · simp [hf]
      · exact absurd hb hh
  · show (List.foldl _ (st, ResolveRes.ok) [loc]).2 = ResolveRes.err
    simp only [List.foldl_cons, List.foldl_nil]
    simp only [hne, if_false]
    unfold importRemote
    simp only [hcon, Bool.false_eq_true, if_false]
    by_cases hh : w.isHttp loc = true
    · simp [hh, hf]
    · cases hb : w.isHttp loc
      · simp [hb, hf]
      · exact absurd hb hh

/-- C3, witness: a directly listed, unretrievable location aborts both
the schema-level and the root-level loop in a concrete world. -/
theorem direct_import_failure_aborts_witness :
    (importSchema ⟨fun _ => true, fun _ => FetchOutcome.fetchError⟩ 3 emptyRState
        ["L1"] []).2 = ResolveRes.err ∧
    (importRoot ⟨fun _ => true, fun _ => FetchOutcome.fetchError⟩ emptyRState
        ["L1"]).2 = ResolveRes.err :=
  direct_import_failure_aborts ⟨fun _ => true, fun _ => FetchOutcome.fetchError⟩
    emptyRState "L1" 2 rfl (by decide) (by decide)

/-! ## SOAP dispatch (`writeSOAPFunc`, `soapActionFuncT`, `soapFuncT`)

The two client-function templates are embedded verbatim as lists of
lines (template braces are written as escaped brace characters). -/

/-- The text of the `soapActionFuncT` template: it assigns the request
version, the type namespace and the party into the first input parameter
before the call, and returns the unwrapped nested response-body field. -/
def soapActionFuncTLines : List String :=
  ["func (c *\x7b\x7b.GoClientType\x7d\x7d) \x7b\x7b.Name\x7d\x7d(\x7b\x7b.Input\x7d\x7d) (\x7b\x7b.Output\x7d\x7d) \x7b",
   "    \x7b\x7bindex .InputNames 0\x7d\x7d.Version = RequestVersion",
   "    \x7b\x7bindex .InputNames 0\x7d\x7d.TypeNamespace = Namespace",
   "    \x7b\x7bindex .InputNames 0\x7d\x7d.Party = c.cli.party",
   "",
   "\treq := struct \x7b",
   "\t\t\x7b\x7bif .OpInputDataType\x7d\x7d",
   "\t\t\t\x7b\x7bif .RPCStyle\x7d\x7dM\x7b\x7bend\x7d\x7d \x7b\x7b.OpInputDataType\x7d\x7d `xml:\"\x7b\x7b.OpName\x7d\x7d\"`",
   "\t\t\x7b\x7bend\x7d\x7d",
   "\t\x7d\x7b",
   "\t\t\x7b\x7bif .OpInputDataType\x7d\x7d\x7b\x7b.OpInputDataType\x7d\x7d \x7b",
   "\t\t\t\x7b\x7brange $index, $element := .InputNames\x7d\x7d\x7b\x7b$element\x7d\x7d,",
   "\t\t\t\x7b\x7bend\x7d\x7d",
   "\t\t\x7d,\x7b\x7bend\x7d\x7d",
   "\t\x7d",
   "",
   "\tres := struct \x7b",
   "\t\tXMLName  xml.Name `xml:\"Envelope\"`",
   "\t\tXMLNSNS2 string   `xml:\"xmlns:ns2,attr\"`",
   "\t\tXMLNSNS3 string   `xml:\"xmlns:ns3,attr\"`",
   "        Body     struct \x7b",
   "            \x7b\x7bif .OpResponseDataType\x7d\x7d",
   "                \x7b\x7bif .RPCStyle\x7d\x7dM \x7b\x7bend\x7d\x7d\x7b\x7bindex .OpOutputNames 0\x7d\x7d \x7b\x7bindex .OpOutputNames 0\x7d\x7d",
   "            \x7b\x7bend\x7d\x7d",
   "        \x7d `xml:\"Body\"`",
   "\t\x7d\x7b\x7d",
   "",
   "    err := c.cli.call(ctx, \"\x7b\x7b.Name\x7d\x7d\", req, &res)",
   "    if err != nil \x7b",
   "\t\treturn nil, err",
   "    \x7d",
   "",
   "    return &res.Body.\x7b\x7bindex .OpOutputNames 0\x7d\x7d, nil",
   "\x7d"]

/-- The text of the `soapFuncT` template: a plain
`c.cli.RoundTripWithAction` round trip with no field injection and no
response-body unwrapping. -/
def soapFuncTLines : List String :=
  ["func (c *\x7b\x7b.GoClientType\x7d\x7d) \x7b\x7b.Name\x7d\x7d(\x7b\x7b.Input\x7d\x7d) (\x7b\x7b.Output\x7d\x7d) \x7b",
   "\tα := struct \x7b",
   "\t\t\x7b\x7bif .OpInputDataType\x7d\x7d",
   "\t\t\t\x7b\x7bif .RPCStyle\x7d\x7dM\x7b\x7bend\x7d\x7d \x7b\x7b.OpInputDataType\x7d\x7d `xml:\"\x7b\x7b.OpName\x7d\x7d\"`",
   "\t\t\x7b\x7bend\x7d\x7d",
   "\t\x7d\x7b",
   "\t\t\x7b\x7bif .OpInputDataType\x7d\x7d\x7b\x7b.OpInputDataType\x7d\x7d \x7b",
   "\t\t\t\x7b\x7brange $index, $element := .InputNames\x7d\x7d\x7b\x7b$element\x7d\x7d,",
   "\t\t\t\x7b\x7bend\x7d\x7d",
   "\t\t\x7d,\x7b\x7bend\x7d\x7d",
   "\t\x7d",
   "",
   "\tγ := struct \x7b",
   "\t\t\x7b\x7bif .OpResponseDataType\x7d\x7d",
   "\t\t\t\x7b\x7bif .RPCStyle\x7d\x7dM \x7b\x7bend\x7d\x7d\x7b\x7b.OpResponseDataType\x7d\x7d `xml:\"\x7b\x7b.OpResponseName\x7d\x7d\"`",
   "\t\t\x7b\x7bend\x7d\x7d",
   "\t\x7d\x7b\x7d",
   "\tif err := c.cli.RoundTripWithAction(\"\x7b\x7b.Name\x7d\x7d\", α, &γ); err != nil \x7b",
   "\t\treturn \x7b\x7b.RetDef\x7d\x7d",
   "\t\x7d",
   "\treturn \x7b\x7brange $index, $element := .OpOutputNames\x7d\x7d\x7b\x7bindex $.OpOutputPrefixes $index\x7d\x7dγ.\x7b\x7bif $.RPCStyle\x7d\x7dM.\x7b\x7bend\x7d\x7d\x7b\x7b$element\x7d\x7d, \x7b\x7bend\x7d\x7dnil",
   "\x7d"]

inductive SoapTemplate where
  | actionFunc
  | plainFunc
deriving DecidableEq

/-- The template literal each `SoapTemplate` names. -/
def SoapTemplate.lines : SoapTemplate → List String
  | .actionFunc => soapActionFuncTLines
  | .plainFunc => soapFuncTLines

/-- Embeds the strategy selection of `writeSOAPFunc` (after its early
`return false` when the operation has no binding operation): the primary
action string `bindingOp.Operation.Action`; if it is empty, the secondary
`bindingOp.Operation11.Action`; if the resulting action is non-empty,
`soapActionFuncT` is executed, otherwise `soapFuncT`. -/
def writeSOAPFuncTemplate (opHasBinding : Bool) (primaryAction secondaryAction : String) :
    Option SoapTemplate :=
  if !opHasBinding then none
  else
    let soapAction := primaryAction
    let soapAction := if soapAction = "" then secondaryAction else soapAction
    if soapAction ≠ "" then some .actionFunc else some .plainFunc

/-- C4, counterexample.  For a binding operation whose primary action
string is present (secondary absent), the emitter executes
`soapActionFuncT` — the template that injects the protocol-version,
target-namespace and party fields into the first input parameter and
unwraps the nested response-body field — not a plain action-based
dispatch: the injection lines belong to the chosen template and not to
the generic `soapFuncT`. -/
theorem writeSOAPFunc_primary_action_injects :
    writeSOAPFuncTemplate true "urn:do" "" = some SoapTemplate.actionFunc ∧
    "    \x7b\x7bindex .InputNames 0\x7d\x7d.Version = RequestVersion"
      ∈ SoapTemplate.actionFunc.lines ∧
    "    \x7b\x7bindex .InputNames 0\x7d\x7d.Party = c.cli.party"
      ∈ SoapTemplate.actionFunc.lines ∧
    "    return &res.Body.\x7b\x7bindex .OpOutputNames 0\x7d\x7d, nil"
      ∈ SoapTemplate.actionFunc.lines ∧
    "    \x7b\x7bindex .InputNames 0\x7d\x7d.Version = RequestVersion"
      ∉ SoapTemplate.plainFunc.lines ∧
    "    \x7b\x7bindex .InputNames 0\x7d\x7d.Party = c.cli.party"
      ∉ SoapTemplate.plainFunc.lines := by
  refine ⟨rfl, by decide, by decide, by decide, by decide, by decide⟩

/-- C4, amended.  The dispatch has only two templates: whenever either
action string (primary, or secondary when the primary is empty) is
present, the injecting/unwrapping `soapActionFuncT` is executed — for the
primary exactly as for the secondary; only when both are absent is the
generic round-trip `soapFuncT` used; an operation without a binding
operation gets no SOAP function at all. -/
theorem writeSOAPFunc_template_dispatch (p s : String) :
    writeSOAPFuncTemplate true p s
      = some (if p = "" ∧ s = "" then SoapTemplate.plainFunc else SoapTemplate.actionFunc) ∧
    writeSOAPFuncTemplate false p s = none := by
  constructor
  · unfold writeSOAPFuncTemplate
    by_cases hp : p = ""
    · by_cases hs : s = "" <;> simp [hp, hs]
    · simp [hp]
  · rfl

/-! ## Schema object model (the parts consumed by the flattener and the
struct emitter)

`wsdl.Element`, `wsdl.Attribute` and `wsdl.AnyElement` are plain records;
`wsdl.ComplexType`, `wsdl.Sequence`, `wsdl.Choice` and complex-content
extension are mutually recursive.  The Go code manipulates pointers into
the shared `ge.ctypes` registry; here a registry entry is a tree, and the
base-type lookup of the flattener copies the registry tree in. -/

structure Element where
  name : String
  typ : String
  ref : String
  min : Nat
  max : String
  nillable : Bool
  tag : String
deriving DecidableEq

structure Attribute where
  name : String
  typ : String
  tagName : String
  ref : String
  nillable : Bool
  min : Nat
  arrayType : String
deriving DecidableEq

structure AnyElem where
  minOccurs : String
  maxOccurs : String
deriving DecidableEq

structure SCExtension where
  base : String
  attributes : List Attribute
deriving DecidableEq

structure SCRestriction where
  base : String
deriving DecidableEq

/-- `wsdl.SimpleContent`. -/
structure SimpleContent where
  extension : Option SCExtension
  restriction : Option SCRestriction
deriving DecidableEq

structure CCRestriction where
  attributes : List Attribute
deriving DecidableEq

mutual
inductive ComplexType where
  | mk (name : String) (abstract : Bool)
      (attributes : List Attribute) (allElements : List Element)
      (sequence : Option Sequence) (choice : Option Choice)
      (complexContent : Option ComplexContent)
      (simpleContent : Option SimpleContent)

inductive Sequence where
  | mk (complexTypes : List ComplexType) (elements : List Element)
      (choices : List Choice) (anyElems : List AnyElem)

inductive Choice where
  | mk (complexTypes : List ComplexType) (elements : List Element)
      (sequence : Option Sequence) (anyElems : List AnyElem)

inductive ComplexContent where
  | mk (extension : Option CCExtension) (restriction : Option CCRestriction)

inductive CCExtension where
  | mk (base : String) (attributes : List Attribute)
      (sequence : Option Sequence) (choice : Option Choice)
end

def ComplexType.name : ComplexType → String
  | .mk n _ _ _ _ _ _ _ => n

def ComplexType.abstract : ComplexType → Bool
  | .mk _ a _ _ _ _ _ _ => a

def ComplexType.attributes : ComplexType → List Attribute
  | .mk _ _ a _ _ _ _ _ => a

def ComplexType.allElements : ComplexType → List Element
  | .mk _ _ _ e _ _ _ _ => e

def ComplexType.sequence : ComplexType → Option Sequence
  | .mk _ _ _ _ s _ _ _ => s

def ComplexType.choice : ComplexType → Option Choice
  | .mk _ _ _ _ _ c _ _ => c

def ComplexType.complexContent : ComplexType → Option ComplexContent
  | .mk _ _ _ _ _ _ cc _ => cc

def ComplexType.simpleContent : ComplexType → Option SimpleContent
  | .mk _ _ _ _ _ _ _ sc => sc

def Sequence.complexTypes : Sequence → List ComplexType
  | .mk c _ _ _ => c

def Sequence.elements : Sequence → List Element
  | .mk _ e _ _ => e

def Sequence.choices : Sequence → List Choice
  | .mk _ _ c _ => c

def Sequence.anyElems : Sequence → List AnyElem
  | .mk _ _ _ a => a

def Choice.complexTypes : Choice → List ComplexType
  | .mk c _ _ _ => c

def Choice.elements : Choice → List Element
  | .mk _ e _ _ => e

def Choice.sequence : Choice → Option Sequence
  | .mk _ _ s _ => s

def Choice.anyElems : Choice → List AnyElem
  | .mk _ _ _ a => a

/-- The registry `ge.ctypes`. -/
def Registry : Type := List (String × ComplexType)

def emptySequence : Sequence := .mk [] [] [] []

/-! ## Type flattener (`flatTypeElements`, `flatComplexContent`,
`flatSimpleContent`, `flatFields`, `flatAttributeField(s)`,
`flatElementField(s)`)

The Go `RedefinedStructFields` map passed by reference is threaded
explicitly: each function returns the updated set alongside the list. -/

/-- Embeds `flatAttributeField`: skip when the name was already seen,
else record the name and append. -/
def flatAttributeField (attrs : List Attribute) (attr : Attribute)
    (redefined : List String) : List Attribute × List String :=
  if redefined.contains attr.name then (attrs, redefined)
  else (attrs ++ [attr], redefined ++ [attr.name])

/-- Embeds `flatAttributeFields`: fold `flatAttributeField` over the
appended attributes, sharing one seen-set. -/
def flatAttributeFields (attrs appendedAttrs : List Attribute)
    (redefined : List String) : List Attribute × List String :=
  appendedAttrs.foldl (fun p a => flatAttributeField p.1 a p.2) (attrs, redefined)

/-- Embeds `flatElementField`. -/
def flatElementField (elements : List Element) (el : Element)
    (redefined : List String) : List Element × List String :=
  if redefined.contains el.name then (elements, redefined)
  else (elements ++ [el], redefined ++ [el.name])

/-- Embeds `flatElementFields`. -/
def flatElementFields (elements appendedElements : List Element)
    (redefined : List String) : List Element × List String :=
  appendedElements.foldl (fun p e => flatElementField p.1 e p.2) (elements, redefined)

/-- Embeds `ct.Sequence = &wsdl.Sequence{}` when the sequence is nil (the
first statement of `flatTypeElements`). -/
def ensureSequence : ComplexType → ComplexType
  | .mk name abs attrs elems seqO choO ccO scO =>
    match seqO with
    | none => .mk name abs attrs elems (some emptySequence) choO ccO scO
    | some s => .mk name abs attrs elems (some s) choO ccO scO

/-- Embeds `flatComplexContent`: clear the extension (and the whole
complex content when there is no restriction), queue the resolved base
type and the extension's sequence/choice content onto the type's
sequence, and merge the extension's attributes. -/
def flatComplexContent (reg : Registry) : ComplexType → ComplexType
  | .mk name abs attrs elems seqO choO ccO scO =>
    match ccO with
    | none => .mk name abs attrs elems seqO choO none scO
    | some (ComplexContent.mk extO restrO) =>
      match extO with
      | none => .mk name abs attrs elems seqO choO (some (ComplexContent.mk none restrO)) scO
      | some (CCExtension.mk base extAttrs extSeqO extChoO) =>
        let ccO' : Option ComplexContent :=
          match restrO with
          | none => none
          | some r => some (ComplexContent.mk none (some r))
        match seqO.getD emptySequence with
        | Sequence.mk scts sels schs sany =>
          let scts :=
            if base ≠ "" then
              match mapLookup reg (trimns base) with
              | some b => scts ++ [b]
              | none => scts
            else scts
          let attrs := (flatAttributeFields attrs extAttrs []).1
          let sequences : List Sequence :=
            (match extSeqO with
             | none => []
             | some s =>
               [s] ++ s.choices.map
                 (fun ch => Sequence.mk ch.complexTypes ch.elements [] ch.anyElems))
            ++ (match extChoO with
                | none => []
                | some ch =>
                  [Sequence.mk ch.complexTypes ch.elements [] ch.anyElems]
                    ++ (match ch.sequence with
                        | none => []
                        | some s => [s]))
          let folded := sequences.foldl
            (fun (acc : List ComplexType × List Element × List AnyElem) s =>
              (acc.1 ++ s.complexTypes, acc.2.1 ++ s.elements, acc.2.2 ++ s.anyElems))
            (scts, sels, sany)
          .mk name abs attrs elems
            (some (Sequence.mk folded.1 folded.2.1 schs folded.2.2)) choO ccO' scO

/-- Embeds `flatSimpleContent`: clear the extension (and the whole simple
content when there is no restriction), merge the extension's attributes,
and either queue the resolved complex base onto the sequence or append a
synthetic chardata `Content` element typed as the primitive base. -/
def flatSimpleContent (reg : Registry) : ComplexType → ComplexType
  | .mk name abs attrs elems seqO choO ccO scO =>
    match scO with
    | none => .mk name abs attrs elems seqO choO ccO none
    | some (SimpleContent.mk extO restrO) =>
      match extO with
      | none => .mk name abs attrs elems seqO choO ccO (some (SimpleContent.mk none restrO))
      | some (SCExtension.mk base scAttrs) =>
        let scO' : Option SimpleContent :=
          match restrO with
          | none => none
          | some r => some (SimpleContent.mk none (some r))
        let attrs := (flatAttributeFields attrs scAttrs []).1
        if base ≠ "" then
          match mapLookup reg (trimns base) with
          | some b =>
            match seqO.getD emptySequence with
            | Sequence.mk scts sels schs sany =>
              .mk name abs attrs elems
                (some (Sequence.mk (scts ++ [b]) sels schs sany)) choO ccO scO'
          | none =>
            let el : Element :=
              ⟨"Content", trimns base, "", 0, "", false, ",chardata"⟩
            .mk name abs attrs (flatElementField elems el []).1 seqO choO ccO scO'
        else .mk name abs attrs elems seqO choO ccO scO'

/-- The body of `flatFields`, parameterized by the recursive flattening
applied to each queued complex-type fragment.  Each fragment is flattened
first and merged with a fresh seen-set (`RedefinedStructFields{}`); the
type's own sequence elements, the sequence's choice elements, the
choice's elements and the choice's nested sequence elements all share the
single `redefined` set created at the top.  Finally the sequence and
choice markers are cleared. -/
def flatFieldsWith (flatten : ComplexType → ComplexType) (ct : ComplexType) :
    ComplexType :=
  match ct with
  | .mk name abs attrs elems seqO choO ccO scO =>
    let ρ : List String := []
    let state :=
      match seqO with
      | none => (attrs, elems, ρ)
      | some (Sequence.mk scts sels schs _sany) =>
        let p := scts.foldl
          (fun (p : List Attribute × List Element) v =>
            let v' := flatten v
            ((flatAttributeFields p.1 v'.attributes []).1,
             (flatElementFields p.2 v'.allElements []).1))
          (attrs, elems)
        let q := flatElementFields p.2 sels ρ
        let r := schs.foldl
          (fun (p : List Element × List String) (ch : Choice) =>
            flatElementFields p.1 ch.elements p.2) q
        (p.1, r.1, r.2)
    let final :=
      match choO with
      | none => (state.2.1, state.2.2)
      | some (Choice.mk _ccts cels cseqO _cany) =>
        let q := flatElementFields state.2.1 cels state.2.2
        match cseqO with
        | none => q
        | some s => flatElementFields q.1 s.elements q.2
    .mk name abs state.1 final.1 none none ccO scO

/-- Embeds `flatTypeElements`, the per-type entry point of the flattener,
with fuel making the unbounded recursion over queued base fragments
total. -/
def flatTypeElements (reg : Registry) : Nat → ComplexType → ComplexType
  | 0, ct => ct
  | fuel + 1, ct =>
    flatFieldsWith (fun v => flatTypeElements reg fuel v)
      (flatSimpleContent reg (flatComplexContent reg (ensureSequence ct)))

/-- Embeds `flatFields` (its recursive `flatTypeElements` calls run at
the given fuel). -/
def flatFields (reg : Registry) (fuel : Nat) (ct : ComplexType) : ComplexType :=
  flatFieldsWith (fun v => flatTypeElements reg fuel v) ct

theorem flatTypeElements_succ (reg : Registry) (fuel : Nat) (ct : ComplexType) :
    flatTypeElements reg (fuel + 1) ct
      = flatFields reg fuel (flatSimpleContent reg (flatComplexContent reg (ensureSequence ct))) :=
  rfl

/-! ## Struct emitter shape (`genGoStruct`) -/

/-- The form of declaration `genGoStruct` emits for a complex type. -/
inductive StructKind where
  | abstractInterface
  | opaqueSlice
  | arrayStruct
  | emptyStruct
  | fullStruct
deriving DecidableEq

/-- Embeds the branch ladder of `genGoStruct`: the counter `c`, the
abstract shortcut (`interface{}`), the wildcard shortcuts
(`[]interface{}` when the sequence or choice carries an `Any` and has no
elements — Go's `Any != nil` is a non-empty decoded slice), the
soap-array restriction shortcut, the empty-struct shortcut
(`c > 2`, no attributes, no simple content), and the full struct. -/
def genGoStructKind (ct : ComplexType) : StructKind :=
  let ccExtNil : Bool :=
    match ct.complexContent with
    | none => true
    | some (ComplexContent.mk extO _) => extO.isNone
  let emptyChoice : Choice → Bool := fun ch =>
    ch.complexTypes.length == 0 && ch.elements.length == 0 &&
      (match ch.sequence with
       | none => true
       | some cs => cs.elements.length == 0)
  let seqChoCount : Nat :=
    match ct.sequence, ct.choice with
    | none, none => 1
    | someSeq, choO =>
      match someSeq with
      | some s =>
        if s.complexTypes.length == 0 && s.elements.length == 0 && s.choices.length == 0 then 1
        else
          match choO with
          | some ch => if emptyChoice ch then 1 else 0
          | none => 0
      | none =>
        match choO with
        | some ch => if emptyChoice ch then 1 else 0
        | none => 0
  let c := (if ct.allElements.length == 0 then 1 else 0)
    + (if ccExtNil then 1 else 0) + seqChoCount
  if ct.abstract then .abstractInterface
  else
    match ct.sequence with
    | some s =>
      if !s.anyElems.isEmpty && s.elements.length == 0 then .opaqueSlice
      else genGoStructKindRest ct c
    | none => genGoStructKindRest ct c
where
  /-- The remainder of the ladder after the sequence-wildcard check. -/
  genGoStructKindRest (ct : ComplexType) (c : Nat) : StructKind :=
    match ct.choice with
    | some ch =>
      if !ch.anyElems.isEmpty && ch.elements.length == 0 then .opaqueSlice
      else genGoStructKindTail ct c
    | none => genGoStructKindTail ct c
  /-- The array-restriction and empty-struct checks and the fallthrough. -/
  genGoStructKindTail (ct : ComplexType) (c : Nat) : StructKind :=
    match ct.complexContent with
    | some (ComplexContent.mk _ (some (CCRestriction.mk [attr]))) =>
      if attr.arrayType ≠ "" then .arrayStruct
      else if c > 2 && ct.attributes.length == 0 && ct.simpleContent.isNone then .emptyStruct
      else .fullStruct
    | _ =>
      if c > 2 && ct.attributes.length == 0 && ct.simpleContent.isNone then .emptyStruct
      else .fullStruct

/-- A complex type whose only content is a wildcard: its sequence has an
`Any` and no declared elements, no attributes, no content extensions. -/
def wildcardOnlyType : ComplexType :=
  .mk "T" false [] [] (some (.mk [] [] [] [⟨"0", "unbounded"⟩])) none none none

def wildcardRegistry : Registry := [("T", wildcardOnlyType)]

/-- C5.  The wildcard branch of `genGoStruct` would fire on the raw type
(first conjunct), but `cacheTypes` runs `flatTypeElements` on every
registry entry before emission, and `flatFields` unconditionally clears
the sequence and choice markers, silently dropping the `Any` content; on
the flattened type the wildcard check can no longer fire and the type is
emitted as an (empty) struct declaration — contradicting both the
specified degradation and genGoStruct's own wildcard branch, which the
flattening stage made unreachable. -/
theorem wildcard_type_emits_struct_after_flattening :
    genGoStructKind wildcardOnlyType = StructKind.opaqueSlice ∧
    (flatTypeElements wildcardRegistry 1 wildcardOnlyType).sequence = none ∧
    (flatTypeElements wildcardRegistry 1 wildcardOnlyType).choice = none ∧
    genGoStructKind (flatTypeElements wildcardRegistry 1 wildcardOnlyType)
      = StructKind.emptyStruct := by
  refine ⟨rfl, rfl, rfl, rfl⟩

/-! ## Idempotence of the flattener -/

/-- A complex-content slot whose extension marker has been cleared. -/
def ccCleared (o : Option ComplexContent) : Prop :=
  o = none ∨ ∃ r, o = some (ComplexContent.mk none r)

/-- A simple-content slot whose extension marker has been cleared. -/
def scCleared (o : Option SimpleContent) : Prop :=
  o = none ∨ ∃ r, o = some (SimpleContent.mk none r)

theorem flatComplexContent_clears (reg : Registry) (ct : ComplexType) :
    ccCleared (flatComplexContent reg ct).complexContent := by
  obtain ⟨nm, ab, ats, el, seqO, choO, ccO, scO⟩ := ct
  cases ccO with
  | none => exact Or.inl rfl
  | some cc =>
    obtain ⟨extO, restrO⟩ := cc
    cases extO with
    | none => exact Or.inr ⟨restrO, rfl⟩
    | some ext =>
      obtain ⟨base, eAttrs, eSeqO, eChoO⟩ := ext
      cases restrO with
      | none =>
        cases seqO with
        | none => exact Or.inl rfl
        | some s => obtain ⟨a, b, c, d⟩ := s; exact Or.inl rfl
      | some r =>
        cases seqO with
        | none => exact Or.inr ⟨some r, rfl⟩
        | some s => obtain ⟨a, b, c, d⟩ := s; exact Or.inr ⟨some r, rfl⟩

theorem flatSimpleContent_complexContent (reg : Registry) (ct : ComplexType) :
    (flatSimpleContent reg ct).complexContent = ct.complexContent := by
  obtain ⟨nm, ab, ats, el, seqO, choO, ccO, scO⟩ := ct
  cases scO with
  | none => rfl
  | some sc =>
    obtain ⟨extO, restrO⟩ := sc
    cases extO with
    | none => rfl
    | some ext =>
      obtain ⟨base, sAttrs⟩ := ext
      show ComplexType.complexContent (flatSimpleContent reg (ComplexType.mk _ _ _ _ _ _ _ _)) = _
      unfold flatSimpleContent
      by_cases hb : base ≠ ""
      · simp only [hb, if_true]
        cases hlook : mapLookup reg (trimns base) with
        | some b =>
          cases seqO with
          | none => cases restrO <;> simp [hlook, hb, ComplexType.complexContent, emptySequence]
          | some s =>
            obtain ⟨a, bb, c, d⟩ := s
            cases restrO <;> simp [hlook, hb, ComplexType.complexContent]
        | none => cases restrO <;> simp [hlook, hb, ComplexType.complexContent]
      · simp only [hb, if_false]
        cases restrO <;> simp [ComplexType.complexContent]

theorem flatSimpleContent_clears (reg : Registry) (ct : ComplexType) :
    scCleared (flatSimpleContent reg ct).simpleContent := by
  obtain ⟨nm, ab, ats, el, seqO, choO, ccO, scO⟩ := ct
  cases scO with
  | none => exact Or.inl rfl
  | some sc =>
    obtain ⟨extO, restrO⟩ := sc
    cases extO with
    | none => exact Or.inr ⟨restrO, rfl⟩
    | some ext =>
      obtain ⟨base, sAttrs⟩ := ext
      unfold flatSimpleContent
      by_cases hb : base ≠ ""
      · simp only [hb, if_true]
        cases hlook : mapLookup reg (trimns base) with
        | some b =>
          cases seqO with
          | none =>
            cases restrO with
            | none => simp [hlook, hb, ComplexType.simpleContent, emptySequence, scCleared]
            | some r =>
              rw [if_pos hb]
              exact Or.inr ⟨some r, rfl⟩
          | some s =>
            obtain ⟨a, bb, c, d⟩ := s
            cases restrO with
            | none => simp [hlook, hb, ComplexType.simpleContent, scCleared]
            | some r =>
              rw [if_pos hb]
              exact Or.inr ⟨some r, rfl⟩
        | none =>
          cases restrO with
          | none => simp [hlook, hb, ComplexType.simpleContent, scCleared]
          | some r =>
            rw [if_pos hb]
            exact Or.inr ⟨some r, rfl⟩
      · simp only [hb, if_false]
        cases restrO with
        | none => exact Or.inl rfl
        | some r => exact Or.inr ⟨some r, rfl⟩

theorem flatFieldsWith_markers (f : ComplexType → ComplexType) (ct : ComplexType) :
    (flatFieldsWith f ct).sequence = none ∧ (flatFieldsWith f ct).choice = none ∧
    (flatFieldsWith f ct).complexContent = ct.complexContent ∧
    (flatFieldsWith f ct).simpleContent = ct.simpleContent := by
  obtain ⟨nm, ab, ats, el, seqO, choO, ccO, scO⟩ := ct
  cases seqO with
  | none =>
    cases choO with
    | none => exact ⟨rfl, rfl, rfl, rfl⟩
    | some ch =>
      obtain ⟨a, b, cseqO, d⟩ := ch
      cases cseqO <;> exact ⟨rfl, rfl, rfl, rfl⟩
  | some s =>
    obtain ⟨a, b, c, d⟩ := s
    cases choO with
    | none => exact ⟨rfl, rfl, rfl, rfl⟩
    | some ch =>
      obtain ⟨a', b', cseqO, d'⟩ := ch
      cases cseqO <;> exact ⟨rfl, rfl, rfl, rfl⟩

/-- The output of one flattening pass: sequence and choice markers
cleared, complex- and simple-content extensions cleared. -/
theorem flatTypeElements_output_form (reg : Registry) (n : Nat) (ct : ComplexType) :
    (flatTypeElements reg (n + 1) ct).sequence = none ∧
    (flatTypeElements reg (n + 1) ct).choice = none ∧
    ccCleared (flatTypeElements reg (n + 1) ct).complexContent ∧
    scCleared (flatTypeElements reg (n + 1) ct).simpleContent := by
  have h4 := flatFieldsWith_markers (fun v => flatTypeElements reg n v)
    (flatSimpleContent reg (flatComplexContent reg (ensureSequence ct)))
  have heq : flatTypeElements reg (n + 1) ct
      = flatFieldsWith (fun v => flatTypeElements reg n v)
          (flatSimpleContent reg (flatComplexContent reg (ensureSequence ct))) := rfl
  rw [heq]
  refine ⟨h4.1, h4.2.1, ?_, ?_⟩
  · rw [h4.2.2.1, flatSimpleContent_complexContent]
    exact flatComplexContent_clears reg (ensureSequence ct)
  · rw [h4.2.2.2]
    exact flatSimpleContent_clears reg (flatComplexContent reg (ensureSequence ct))

/-- A further flattening pass is the identity on a type in flattened
form. -/
theorem flatTypeElements_noop (reg : Registry) (m : Nat) (ct : ComplexType)
    (h1 : ct.sequence = none) (h2 : ct.choice = none)
    (h3 : ccCleared ct.complexContent) (h4 : scCleared ct.simpleContent) :
    flatTypeElements reg (m + 1) ct = ct := by
  obtain ⟨nm, ab, ats, el, seqO, choO, ccO, scO⟩ := ct
  have hs : seqO = none := h1
  have hc : choO = none := h2
  subst hs; subst hc
  rcases h3 with h3 | ⟨r, h3⟩ <;> rcases h4 with h4 | ⟨r', h4⟩ <;>
    (have hcc : ccO = _ := h3) <;> (have hsc : scO = _ := h4) <;>
    subst hcc <;> subst hsc <;> rfl

/-- C8.  Flattening is idempotent per complex type: a second pass over an
already-flattened type (any fuel on either pass) changes nothing — field
list, attributes and the cleared shape markers all survive unchanged. -/
theorem flatTypeElements_idempotent (reg : Registry) (m n : Nat) (ct : ComplexType) :
    flatTypeElements reg (m + 1) (flatTypeElements reg (n + 1) ct)
      = flatTypeElements reg (n + 1) ct := by
  obtain ⟨hs, hc, hcc, hsc⟩ := flatTypeElements_output_form reg n ct
  exact flatTypeElements_noop reg m _ hs hc hcc hsc

/-! ## Deduplication scope of the field merge -/

theorem flatElementFields_nil (acc : List Element) (ρ : List String) :
    flatElementFields acc [] ρ = (acc, ρ) := rfl

theorem flatElementFields_cons (acc : List Element) (e : Element)
    (rest : List Element) (ρ : List String) :
    flatElementFields acc (e :: rest) ρ
      = flatElementFields (flatElementField acc e ρ).1 rest (flatElementField acc e ρ).2 := rfl

/-- How many fields named `n` one `flatElementFields` call appends: one
when the appended fragment mentions `n` and the seen-set does not yet
contain it, none otherwise — regardless of what the accumulated list
already contains. -/
theorem flatElementFields_countP (n : String) :
    ∀ (frag acc : List Element) (ρ : List String),
      (flatElementFields acc frag ρ).1.countP (fun e => e.name == n)
        = acc.countP (fun e => e.name == n)
          + (if frag.any (fun e => e.name == n) && !ρ.contains n then 1 else 0) := by
  intro frag
  induction frag with
  | nil =>
    intro acc ρ
    simp [flatElementFields_nil]
  | cons e rest ih =>
    intro acc ρ
    rw [flatElementFields_cons]
    unfold flatElementField
    by_cases hρ : ρ.contains e.name = true
    · rw [if_pos hρ, ih acc ρ]
      by_cases hn : (e.name == n) = true
      · have he : e.name = n := eq_of_beq hn
        have hcn : ρ.contains n = true := by rwa [he] at hρ
        simp only [hcn, Bool.not_true, Bool.and_false, Bool.false_eq_true, if_false]
      · have hn' : (e.name == n) = false := Bool.eq_false_iff.mpr hn
        simp only [List.any_cons, hn', Bool.false_or]
    · rw [if_neg hρ, ih, List.countP_append]
      by_cases hn : (e.name == n) = true
      · have he : e.name = n := eq_of_beq hn
        have hρn : ρ.contains n = false := by
          rw [← he]
          exact Bool.eq_false_iff.mpr hρ
        have hcon : (ρ ++ [e.name]).contains n = true :=
          List.elem_iff.mpr (List.mem_append.mpr (Or.inr (by simp [he])))
        simp only [hcon, List.any_cons, hn, Bool.true_or, hρn, List.countP_cons,
          List.countP_nil, Bool.not_true, Bool.and_false, Bool.false_eq_true, if_false,
          Bool.not_false, Bool.and_true, if_true]
      · have hn' : (e.name == n) = false := Bool.eq_false_iff.mpr hn
        have hne : n ≠ e.name := fun h => hn (beq_iff_eq.mpr h.symm)
        have hcon : (ρ ++ [e.name]).contains n = ρ.contains n := by
          simp only [List.contains_eq_any_beq, List.any_append, List.any_cons,
            List.any_nil, Bool.or_false]
          rw [beq_eq_false_iff_ne.mpr hne, Bool.or_false]
        simp only [hcon, List.any_cons, hn', Bool.false_or, List.countP_cons,
          List.countP_nil, Bool.false_eq_true, if_false]
        omega

/-- A base-type fragment already in flattened form (as the recursive
`flatTypeElements` call inside `flatFields` leaves it): a flat field
list, no sequence/choice markers, no content extensions. -/
def baseFragment (name : String) (attrs : List Attribute) (elems : List Element) :
    ComplexType :=
  .mk name false attrs elems none none none none

theorem flatTypeElements_baseFragment (reg : Registry) (fuel : Nat)
    (nm : String) (a : List Attribute) (e : List Element) :
    flatTypeElements reg fuel (baseFragment nm a e) = baseFragment nm a e := by
  cases fuel with
  | zero => rfl
  | succ m => exact flatTypeElements_noop reg m _ rfl rfl (Or.inl rfl) (Or.inl rfl)

/-- A complex type whose sequence queues two base fragments to merge —
the state `flatComplexContent` leaves behind for a type extending two
bases. -/
def extensionMergeInput (b1 b2 : ComplexType) : ComplexType :=
  .mk "D" false [] [] (some (.mk [b1, b2] [] [] [])) none none none

/-- C6.  Merging two base fragments during extension flattening: each
`flatElementFields` call gets a fresh `RedefinedStructFields{}`, so a
field name occurring (any number of times) inside one fragment
contributes exactly one field — first occurrence wins within the
fragment — while the same name occurring in both fragments is kept twice,
because the second fragment's seen-set knows nothing of the fields
already accumulated from the first. -/
theorem flatFields_dedup_is_per_fragment (reg : Registry) (fuel : Nat) (n : String)
    (nm1 nm2 : String) (a1 a2 : List Attribute) (e1 e2 : List Element) :
    ((flatFields reg fuel
        (extensionMergeInput (baseFragment nm1 a1 e1) (baseFragment nm2 a2 e2))).allElements.countP
      (fun e => e.name == n))
      = (if e1.any (fun e => e.name == n) then 1 else 0)
        + (if e2.any (fun e => e.name == n) then 1 else 0) := by
  show ((flatFieldsWith (fun v => flatTypeElements reg fuel v)
      (extensionMergeInput (baseFragment nm1 a1 e1) (baseFragment nm2 a2 e2))).allElements.countP
      (fun e => e.name == n)) = _
  unfold extensionMergeInput flatFieldsWith
  simp only [List.foldl_cons, List.foldl_nil, flatTypeElements_baseFragment]
  show ((flatElementFields ((flatElementFields [] (baseFragment nm1 a1 e1).allElements []).1)
      (baseFragment nm2 a2 e2).allElements []).1.countP (fun e => e.name == n)) = _
  rw [flatElementFields_countP, flatElementFields_countP]
  simp [baseFragment, ComplexType.allElements]

/-! ## Simple-type emission (`writeGoTypes`, union branch)

The union branch of `writeGoTypes` looks every listed member type up in
`ge.stypes` (under its raw, namespace-prefixed name) and panics when the
lookup fails; a panic is a distinct outcome from the `error` value
`writeGoTypes` returns on its other failure paths. -/

structure SimpleRestriction where
  base : String
  enum : List String
deriving DecidableEq

/-- An inline member simple type of a union (`st.Union.SimpleTypes`). -/
structure SimpleTypeU where
  restriction : Option SimpleRestriction
deriving DecidableEq

structure UnionDecl where
  memberTypes : String
  simpleTypes : List SimpleTypeU
deriving DecidableEq

structure SimpleType where
  name : String
  restriction : Option SimpleRestriction
  union : Option UnionDecl
deriving DecidableEq

/-- Insertion into the `baseTypes` set (`map[string]struct{}`). -/
def insertIfAbsent (l : List String) (x : String) : List String :=
  if l.contains x then l else l ++ [x]

/-- The member-type loop of the union branch: trim each name from the
space-separated `MemberTypes`, skip blanks, collect the restriction base
of each member found in `ge.stypes`, and panic — modeled as `.error` with
the exact panic message — on a member that is not in the catalog. -/
def unionBaseTypes (stypes : List (String × SimpleType)) (stname : String) :
    List String → List String → Except String (List String)
  | acc, [] => .ok acc
  | acc, t :: rest =>
    let t := trimSpace t
    if t = "" then unionBaseTypes stypes stname acc rest
    else
      match mapLookup stypes t with
      | some stU =>
        match stU.restriction with
        | none => unionBaseTypes stypes stname acc rest
        | some r => unionBaseTypes stypes stname (insertIfAbsent acc r.base) rest
      | none =>
        .error ("Union for \x27" ++ stname ++ "\x27: simple type \x27" ++ t
          ++ "\x27 must be in ge.stypes")

inductive UnionEmit where
  | panicked (msg : String)
  | aliased (base : String)
  | openType
deriving DecidableEq

/-- The union branch of `writeGoTypes`: member bases, then the inline
simple types' bases, then a single-base alias or a fully open type. -/
def writeUnionType (stypes : List (String × SimpleType)) (stname : String)
    (u : UnionDecl) : UnionEmit :=
  match unionBaseTypes stypes stname [] (splitOnChar ' ' u.memberTypes) with
  | .error msg => .panicked msg
  | .ok baseTypes =>
    let baseTypes := u.simpleTypes.foldl
      (fun acc stU =>
        match stU.restriction with
        | none => acc
        | some r => insertIfAbsent acc r.base)
      baseTypes
    match baseTypes with
    | [b] => .aliased b
    | _ => .openType

inductive SimpleTypeEmit where
  | restrictionAlias (base : String)
  | union (u : UnionEmit)
  | nothing
deriving DecidableEq

/-- The per-simple-type dispatch of `writeGoTypes`: a restriction emits a
type alias (with optional validator), otherwise a union is emitted,
otherwise nothing. -/
def writeGoSimpleType (stypes : List (String × SimpleType)) (st : SimpleType) :
    SimpleTypeEmit :=
  match st.restriction with
  | some r => .restrictionAlias r.base
  | none =>
    match st.union with
    | some u => .union (writeUnionType stypes st.name u)
    | none => .nothing

/-- A union one of whose member type names is not in the simple-type
catalog. -/
def missingMemberUnion : SimpleType :=
  ⟨"U", none, some ⟨"Present Missing", []⟩⟩

def unionStypes : List (String × SimpleType) :=
  [("U", missingMemberUnion), ("Present", ⟨"Present", some ⟨"string", []⟩, none⟩)]

/-- C9.  Emitting the union simple type "U", whose member "Missing" is
absent from the simple-type catalog, panics with the diagnostic message
rather than returning an `error` value as `writeGoTypes` does on its
other failure paths. -/
theorem union_missing_member_panics :
    writeGoSimpleType unionStypes missingMemberUnion
      = .union (.panicked
          "Union for \x27U\x27: simple type \x27Missing\x27 must be in ge.stypes") := by
  decide

/-! ## Top-level driver (`Encode`)

`Encode` is modeled over an abstract definitions type and three oracles:
the internal `encode` producing the generated buffer (or an error), the
Go parser check, and the external gofmt invocation.  The outcome records
the returned error, every byte written to the configured output writer
`ge.w` (which only ever receives gofmt's stdout), and whether the parser
and gofmt were invoked at all. -/

structure EncodeOutcome where
  err : Option String
  written : String
  parserInvoked : Bool
  gofmtInvoked : Bool
deriving DecidableEq

/-- Embeds `Encode`: nil definitions return immediately; an `encode`
error is returned with nothing written; an empty buffer returns nil
before the parser or gofmt run; otherwise the buffer is parsed (a parse
failure returns the annotated-source error) and piped through gofmt,
whose stdout is what reaches `ge.w`. -/
def EncodeTop {α : Type} (d : Option α)
    (enc : α → Except String String)
    (goParse : String → Option String)
    (gofmt : String → Except String String) : EncodeOutcome :=
  match d with
  | none => ⟨none, "", false, false⟩
  | some defs =>
    match enc defs with
    | .error e => ⟨some e, "", false, false⟩
    | .ok body =>
      if body.length = 0 then ⟨none, "", false, false⟩
      else
        match goParse body with
        | some perr => ⟨some ("generated bad code: " ++ perr), "", true, false⟩
        | none =>
          match gofmt body with
          | .error ferr => ⟨some ferr, "", true, true⟩
          | .ok formatted => ⟨none, formatted, true, true⟩

/-- C10.  `Encode` with a nil definitions value, or with definitions
whose generated body is empty, returns a nil error, writes nothing to the
configured output writer, and never invokes the parser or the
formatter. -/
theorem encode_nil_or_empty_writes_nothing {α : Type} (d : Option α)
    (enc : α → Except String String)
    (goParse : String → Option String)
    (gofmt : String → Except String String)
    (h : d = none ∨ ∃ x, d = some x ∧ enc x = .ok "") :
    EncodeTop d enc goParse gofmt = ⟨none, "", false, false⟩ := by
  rcases h with h | ⟨x, hd, hx⟩
  · rw [h]; rfl
  · rw [hd]
    show (match enc x with
      | .error e => (⟨some e, "", false, false⟩ : EncodeOutcome)
      | .ok body =>
        if body.length = 0 then ⟨none, "", false, false⟩
        else
          match goParse body with
          | some perr => ⟨some ("generated bad code: " ++ perr), "", true, false⟩
          | none =>
            match gofmt body with
            | .error ferr => ⟨some ferr, "", true, true⟩
            | .ok formatted => ⟨none, formatted, true, true⟩) = _
    rw [hx]
    rfl

/-- C10, witness: nil definitions, and an encoder producing an empty
buffer, both hit the early returns. -/
theorem encode_nil_or_empty_writes_nothing_witness :
    EncodeTop (none : Option Unit) (fun _ => .ok "x")
        (fun _ => none) (fun s => .ok s) = ⟨none, "", false, false⟩ ∧
    EncodeTop (some ()) (fun _ => .ok "")
        (fun _ => none) (fun s => .ok s) = ⟨none, "", false, false⟩ :=
  ⟨encode_nil_or_empty_writes_nothing none _ _ _ (Or.inl rfl),
   encode_nil_or_empty_writes_nothing (some ()) _ _ _ (Or.inr ⟨(), rfl, rfl⟩)⟩

/-! ## Symbol mangling (`goSymbol`, `trimns`, `maskKeywordUsage`)

`goSymbol` replaces every match of the pattern `[0-9_]*[^0-9a-zA-Z_]+`
with a space and then title-cases each space-separated part with
strings.Title, whose word boundary is "previous character is not in
`[0-9a-zA-Z_]`".  Both passes are embedded char-level so the kernel can
evaluate them. -/

/-- The character class `[0-9a-zA-Z_]`. -/
def isWordChar (c : Char) : Bool := c.isAlphanum || c = '_'

/-- The character class `[0-9_]`. -/
def isDigitOrUnderscore (c : Char) : Bool := c.isDigit || c = '_'

/-- One left-to-right pass of
`invalidGoSymbol.ReplaceAllString(v, " ")`: at each position, a greedy
run of `[0-9_]` followed by a non-empty greedy run of `[^0-9a-zA-Z_]`
is replaced by one space (no shorter match is possible because the two
classes are disjoint); otherwise the character is kept.  The fuel is the
input length. -/
def replaceInvalidAux : Nat → List Char → List Char
  | 0, cs => cs
  | _, [] => []
  | fuel + 1, c :: cs =>
    let rest1 := (c :: cs).dropWhile isDigitOrUnderscore
    let r2 := rest1.takeWhile (fun x => !isWordChar x)
    let rest2 := rest1.dropWhile (fun x => !isWordChar x)
    if r2.isEmpty then c :: replaceInvalidAux fuel cs
    else ' ' :: replaceInvalidAux fuel rest2

/-- strings.Title: uppercase each letter whose preceding character is a
separator (anything outside `[0-9a-zA-Z_]`; the start of the string
counts as one). -/
def goTitleAux : Bool → List Char → List Char
  | _, [] => []
  | prevWord, c :: cs =>
    (if !prevWord then c.toUpper else c) :: goTitleAux (isWordChar c) cs

def goTitle (s : String) : String := String.mk (goTitleAux false s.data)

/-- Embeds `goSymbol`. -/
def goSymbol (s : String) : String :=
  let v := String.mk (replaceInvalidAux (trimns s).data.length (trimns s).data)
  String.join ((splitOnChar ' ' v).map goTitle)

def isGoKeyword (s : String) : Bool :=
  ["break", "case", "chan", "const", "continue", "default", "else", "defer",
   "fallthrough", "for", "func", "go", "goto", "if", "import", "interface",
   "map", "package", "range", "return", "select", "struct", "switch", "type",
   "var"].contains s

/-- Embeds `maskKeywordUsage`. -/
def maskKeywordUsage (code : String) : String :=
  if isGoKeyword code then "_" ++ code else code

/-! ## Type mapping (`wsdl2goType`, `wsdl2goDefault`) -/

def strLower (s : String) : String := String.mk (s.data.map Char.toLower)

/-- Embeds `wsdl2goType`: named simple types map to their Go symbol,
XSD primitives map through the switch, anything else maps to a pointer
to the complex type of that name, or to `string` when unknown. -/
def wsdl2goType (stypeNames ctypeNames : List String) (t : String) : String :=
  let v := trimns t
  if stypeNames.contains v then goSymbol v
  else
    let lv := strLower v
    if lv == "byte" || lv == "unsignedbyte" then "byte"
    else if lv == "int" then "int"
    else if lv == "integer" then "int64"
    else if lv == "long" then "int64"
    else if lv == "float" || lv == "double" || lv == "decimal" then "float64"
    else if lv == "boolean" then "bool"
    else if lv == "hexbinary" || lv == "base64binary" then "[]byte"
    else if lv == "string" || lv == "anyuri" || lv == "token" || lv == "nmtoken"
        || lv == "qname" || lv == "language" || lv == "id" then "string"
    else if lv == "date" then "Date"
    else if lv == "time" then "Time"
    else if lv == "nonnegativeinteger" then "uint"
    else if lv == "positiveinteger" then "uint64"
    else if lv == "normalizedstring" then "string"
    else if lv == "unsignedint" then "uint"
    else if lv == "datetime" then "DateTime"
    else if lv == "duration" then "Duration"
    else if lv == "anysequence" || lv == "anytype" || lv == "anysimpletype" then
      "interface\x7b\x7d"
    else if lv == "idref" then "string"
    else if lv == "idrefs" then "string"
    else
      let v := goSymbol v
      if ctypeNames.contains v then "*" ++ v else "string"

/-- Embeds `wsdl2goDefault`: the language-appropriate zero value per Go
type, `errors.New("not implemented")` for the `error` slot, and an empty
composite literal for everything else. -/
def wsdl2goDefault (t : String) : String :=
  let v := trimns t
  let v := match v.data with
    | '*' :: rest => String.mk rest
    | _ => v
  if v == "error" then "errors.New(\"not implemented\")"
  else if v == "bool" then "false"
  else if v == "uint" || v == "int" || v == "int64" || v == "float64" then "0"
  else if v == "string" then "\"\""
  else if v == "[]byte" || v == "interface\x7b\x7d" then "nil"
  else "&" ++ v ++ "\x7b\x7d"

/-! ## Operation parameters (`parameter`, `code`, `codeParams`,
`inputArgs`, `genParams`, `inputParams`, `outputParams`) -/

structure Param where
  code : String
  dataType : String
  xmlToken : String
deriving DecidableEq

/-- Embeds `code`. -/
def code (list : List Param) : List String :=
  list.map (fun p => maskKeywordUsage p.code ++ " " ++ p.dataType)

/-- Embeds `codeParams`. -/
def codeParams (list : List Param) : List String :=
  list.map (·.dataType)

/-- Embeds `inputArgs`. -/
def inputArgs (ins : List String) : String :=
  String.intercalate "," ("ctx context.Context" :: ins)

structure Part where
  name : String
  typ : String
  element : String
deriving DecidableEq

structure Message where
  name : String
  parts : List Part
deriving DecidableEq

structure IORef where
  message : String
deriving DecidableEq

structure Operation where
  name : String
  doc : String
  input : Option IORef
  output : Option IORef
deriving DecidableEq

/-- The caches of the encoder consumed by interface and client-function
emission: simple-type and complex-type catalog keys, the element cache,
the message cache, the operation cache (`ge.funcs`), and the names of the
binding operations (`ge.soapOps`). -/
structure GenCtx where
  stypeNames : List String
  ctypeNames : List String
  elements : List (String × Element)
  messages : List (String × Message)
  funcs : List (String × Operation)
  soapOpNames : List String

/-- Embeds `genParams` (with `needsTag` false, as both call sites pass). -/
def genParams (ctx : GenCtx) (m : Message) : List Param :=
  m.parts.map (fun part =>
    if part.typ ≠ "" then
      let t := wsdl2goType ctx.stypeNames ctx.ctypeNames part.typ
      { code := part.name, dataType := t, xmlToken := t }
    else if part.element ≠ "" then
      let elName := trimns part.element
      let t := match mapLookup ctx.elements elName with
        | some el => wsdl2goType ctx.stypeNames ctx.ctypeNames (trimns el.typ)
        | none => wsdl2goType ctx.stypeNames ctx.ctypeNames part.element
      { code := goSymbol part.element, dataType := t, xmlToken := trimns part.element }
    else { code := part.name, dataType := "", xmlToken := "" })

/-- Embeds `inputParams`. -/
def inputParams (ctx : GenCtx) (op : Operation) : Except String (List Param) :=
  match op.input with
  | none => .ok []
  | some i =>
    let im := trimns i.message
    match mapLookup ctx.messages im with
    | none =>
      .error ("operation \"" ++ op.name ++ "\" wants input message \"" ++ im
        ++ "\" but it\x27s not defined")
    | some req => .ok (genParams ctx req)

def errParam : Param := { code := "err", dataType := "error", xmlToken := "" }

/-- Embeds `outputParams`: the message's parameters followed by the
`err error` slot. -/
def outputParams (ctx : GenCtx) (op : Operation) : Except String (List Param) :=
  match op.output with
  | none => .ok [errParam]
  | some o =>
    let om := trimns o.message
    match mapLookup ctx.messages om with
    | none =>
      .error ("operation \"" ++ op.name ++ "\" wants output message \"" ++ om
        ++ "\" but it\x27s not defined")
    | some resp => .ok (genParams ctx resp ++ [errParam])

/-- Embeds `fixFuncNameConflicts`, which appends "Func" while the name
collides with a simple- or complex-type name.  The Go recursion stops as
soon as the name escapes both finite catalogs, so one more iteration than
there are catalog entries always suffices; the fuel is set accordingly
by `fixFuncNameConflictsTotal`. -/
def fixFuncNameConflicts (stypeNames ctypeNames : List String) :
    Nat → String → String
  | 0, name => name
  | fuel + 1, name =>
    if stypeNames.contains name || ctypeNames.contains name then
      fixFuncNameConflicts stypeNames ctypeNames fuel (name ++ "Func")
    else name

def fixFuncNameConflictsTotal (ctx : GenCtx) (name : String) : String :=
  fixFuncNameConflicts ctx.stypeNames ctx.ctypeNames
    (ctx.stypeNames.length + ctx.ctypeNames.length + 1) name

/-! ## Interface and client-function emission (`writeInterfaceFuncs`,
`writeGoClientFuncs`) -/

/-- One entry of the generated service interface, tagged with the WSDL
operation it came from. -/
structure IfaceFunc where
  opName : String
  name : String
  input : String
  output : String
deriving DecidableEq

/-- The loop of `writeInterfaceFuncs` over the sorted `funcnames`: an
operation with no matching binding operation is skipped entirely; a bound
operation contributes its name, input signature and output signature. -/
def interfaceFuncsLoop (ctx : GenCtx) : List String → Except String (List IfaceFunc)
  | [] => .ok []
  | fn :: rest =>
    match mapLookup ctx.funcs fn with
    | none => .error "operation missing from cache"
    | some op =>
      if ctx.soapOpNames.contains op.name then do
        let inP ← inputParams ctx op
        let outP ← outputParams ctx op
        let f : IfaceFunc :=
          ⟨op.name, goSymbol op.name, inputArgs (code inP),
            String.intercalate "," (codeParams outP)⟩
        let rest' ← interfaceFuncsLoop ctx rest
        return f :: rest'
      else interfaceFuncsLoop ctx rest

/-- Embeds `writeInterfaceFuncs`. -/
def writeInterfaceFuncs (ctx : GenCtx) : Except String (List IfaceFunc) :=
  interfaceFuncsLoop ctx (funcnames ctx.funcs)

/-- One client function: either a SOAP function emitted by
`writeSOAPFunc` for a bound operation, or the fallback stub emitted for
an operation with no binding operation (signature plus the list of
returned default expressions). -/
inductive ClientFunc where
  | soap (opName : String)
  | stub (opName : String) (funcName : String) (input : String) (output : String)
      (rets : List String)
deriving DecidableEq

/-- The loop of `writeGoClientFuncs` over the sorted `funcnames`:
`writeSOAPFunc` handles bound operations; for an unbound operation the
fallback emits `func <name>(<args>) (<outs>) { return <defaults> }`. -/
def clientFuncsLoop (ctx : GenCtx) : List String → Except String (List ClientFunc)
  | [] => .ok []
  | fn :: rest =>
    match mapLookup ctx.funcs fn with
    | none => .error "operation missing from cache"
    | some op => do
      let inP ← inputParams ctx op
      let outP ← outputParams ctx op
      let item : ClientFunc :=
        if ctx.soapOpNames.contains op.name then .soap op.name
        else
          .stub op.name (fixFuncNameConflictsTotal ctx (goSymbol op.name))
            (inputArgs (code inP))
            (String.intercalate "," (codeParams outP))
            (outP.map (fun p => wsdl2goDefault p.dataType))
      let rest' ← clientFuncsLoop ctx rest
      return item :: rest'

/-- Embeds `writeGoClientFuncs`: the binding/port-type mismatch check,
the empty-cache early return, then the loop. -/
def writeGoClientFuncs (ctx : GenCtx) (bindingName bindingType portTypeName : String) :
    Except String (List ClientFunc) :=
  if bindingType ≠ "" ∧ trimns bindingType ≠ trimns portTypeName then
    .error ("binding \"" ++ bindingName ++ "\" requires port type \""
      ++ bindingType ++ "\" but it\x27s not defined")
  else if ctx.funcs.length = 0 then .ok []
  else clientFuncsLoop ctx (funcnames ctx.funcs)

theorem interfaceFuncsLoop_only_bound (ctx : GenCtx) :
    ∀ (names : List String) (il : List IfaceFunc),
      interfaceFuncsLoop ctx names = .ok il →
      ∀ f ∈ il, ctx.soapOpNames.contains f.opName = true := by
  intro names
  induction names with
  | nil =>
    intro il h f hf
    cases h
    cases hf
  | cons fn rest ih =>
    intro il h f hf
    rw [interfaceFuncsLoop] at h
    cases hlook : mapLookup ctx.funcs fn with
    | none => rw [hlook] at h; cases h
    | some op =>
      simp only [hlook] at h
      by_cases hb : ctx.soapOpNames.contains op.name = true
      · rw [if_pos hb] at h
        cases hin : inputParams ctx op with
        | error e => rw [hin] at h; cases h
        | ok inP =>
          rw [hin] at h
          cases hout : outputParams ctx op with
          | error e => rw [hout] at h; cases h
          | ok outP =>
            rw [hout] at h
            cases hrest : interfaceFuncsLoop ctx rest with
            | error e => rw [hrest] at h; cases h
            | ok rest' =>
              rw [hrest] at h
              cases h
              rcases List.mem_cons.mp hf with hf | hf
              · rw [hf]; exact hb
              · exact ih rest' hrest f hf
      · rw [if_neg hb] at h
        exact ih il h f hf

theorem clientFuncsLoop_stub (ctx : GenCtx) (opName : String) (op : Operation)
    (hop : mapLookup ctx.funcs opName = some op)
    (hname : op.name = opName)
    (hunbound : ctx.soapOpNames.contains opName = false) :
    ∀ (names : List String) (cl : List ClientFunc),
      clientFuncsLoop ctx names = .ok cl → opName ∈ names →
      ∃ inP outP, inputParams ctx op = .ok inP ∧ outputParams ctx op = .ok outP ∧
        ClientFunc.stub opName (fixFuncNameConflictsTotal ctx (goSymbol opName))
          (inputArgs (code inP)) (String.intercalate "," (codeParams outP))
          (outP.map (fun p => wsdl2goDefault p.dataType)) ∈ cl := by
  intro names
  induction names with
  | nil =>
    intro cl _ hmem
    cases hmem
  | cons fn rest ih =>
    intro cl h hmem
    rw [clientFuncsLoop] at h
    cases hlook : mapLookup ctx.funcs fn with
    | none => rw [hlook] at h; cases h
    | some op' =>
      simp only [hlook] at h
      cases hin : inputParams ctx op' with
      | error e => rw [hin] at h; cases h
      | ok inP =>
        rw [hin] at h
        cases hout : outputParams ctx op' with
        | error e => rw [hout] at h; cases h
        | ok outP =>
          rw [hout] at h
          cases hrest : clientFuncsLoop ctx rest with
          | error e => rw [hrest] at h; cases h
          | ok rest' =>
            rw [hrest] at h
            cases h
            rcases List.mem_cons.mp hmem with hmem | hmem
            · subst hmem
              have hoe : op' = op := by
                rw [hop] at hlook
                exact (Option.some.injEq _ _ ▸ hlook).symm
              subst hoe
              refine ⟨inP, outP, hin, hout, ?_⟩
              rw [hname, if_neg (by simp only [hunbound]; exact Bool.false_ne_true)]
              exact List.mem_cons_self _ _
            · rcases ih rest' hrest hmem with ⟨inP', outP', h1, h2, h3⟩
              exact ⟨inP', outP', h1, h2, List.mem_cons_of_mem _ h3⟩

theorem mem_funcnames_of_lookup {α : Type} (m : List (String × α)) (k : String)
    (v : α) (h : mapLookup m k = some v) : k ∈ funcnames m := by
  rcases hf : m.find? (fun p => p.1 = k) with _ | ⟨p⟩
  · rw [mapLookup, hf] at h; cases h
  · have hp : p.1 = k := by
      have := List.find?_some hf
      exact of_decide_eq_true this
    have hmem : p ∈ m := List.mem_of_find?_eq_some hf
    have : k ∈ mapKeys m := by
      rw [← hp]
      exact List.mem_map_of_mem (·.1) hmem
    exact ((sortStrings_perm (mapKeys m)).mem_iff).mpr this

/-- C7.  A port-type operation with no matching binding operation is
omitted from the generated interface, while the client-function output
still contains a stub for it whose signature is built by the same
`inputArgs (code inParams)` / `codeParams outParams` formulas the
interface uses for bound operations, and whose returned defaults end with
the non-nil `errors.New("not implemented")` expression (never the `nil`
literal). -/
theorem unbound_op_omitted_from_interface_but_stubbed
    (ctx : GenCtx) (bindingName bindingType portTypeName opName : String)
    (op : Operation) (il : List IfaceFunc) (cl : List ClientFunc)
    (hop : mapLookup ctx.funcs opName = some op)
    (hname : op.name = opName)
    (hunbound : ctx.soapOpNames.contains opName = false)
    (hil : writeInterfaceFuncs ctx = .ok il)
    (hcl : writeGoClientFuncs ctx bindingName bindingType portTypeName = .ok cl) :
    (∀ f ∈ il, f.opName ≠ opName) ∧
    (∃ inP outP, inputParams ctx op = .ok inP ∧ outputParams ctx op = .ok outP ∧
      ClientFunc.stub opName (fixFuncNameConflictsTotal ctx (goSymbol opName))
        (inputArgs (code inP)) (String.intercalate "," (codeParams outP))
        (outP.map (fun p => wsdl2goDefault p.dataType)) ∈ cl ∧
      (outP.map (fun p => wsdl2goDefault p.dataType)).getLast?
        = some "errors.New(\"not implemented\")" ∧
      "errors.New(\"not implemented\")" ≠ "nil") := by
  constructor
  · intro f hf heq
    have := interfaceFuncsLoop_only_bound ctx (funcnames ctx.funcs) il hil f hf
    rw [heq, hunbound] at this
    cases this
  · have hmem : opName ∈ funcnames ctx.funcs := mem_funcnames_of_lookup _ _ _ hop
    have hlen : ctx.funcs.length ≠ 0 := by
      intro h0
      have hnil : ctx.funcs = [] := List.length_eq_zero.mp h0
      rw [hnil] at hop
      simp [mapLookup] at hop
    have hloop : clientFuncsLoop ctx (funcnames ctx.funcs) = .ok cl := by
      rw [writeGoClientFuncs] at hcl
      by_cases hbt : bindingType ≠ "" ∧ trimns bindingType ≠ trimns portTypeName
      · rw [if_pos hbt] at hcl; cases hcl
      · rw [if_neg hbt, if_neg hlen] at hcl
        exact hcl
    rcases clientFuncsLoop_stub ctx opName op hop hname hunbound
        (funcnames ctx.funcs) cl hloop hmem with ⟨inP, outP, h1, h2, h3⟩
    refine ⟨inP, outP, h1, h2, h3, ?_, by decide⟩
    have hlast : outP.getLast? = some errParam := by
      rw [outputParams] at h2
      cases hoo : op.output with
      | none =>
        simp only [hoo] at h2
        cases h2
        rfl
      | some o =>
        simp only [hoo] at h2
        cases hlk : mapLookup ctx.messages (trimns o.message) with
        | none => simp only [hlk] at h2; cases h2
        | some resp =>
          simp only [hlk] at h2
          cases h2
          simp [List.getLast?_concat]
    rw [List.getLast?_map, hlast]
    rfl

/-- A port-type operation "Ping" with defined input/output messages and
no binding operation. -/
def c7Op : Operation := ⟨"Ping", "", some ⟨"tns:PingIn"⟩, some ⟨"tns:PingOut"⟩⟩

def c7Ctx : GenCtx where
  stypeNames := []
  ctypeNames := []
  elements := []
  messages :=
    [("PingIn", ⟨"PingIn", [⟨"req", "xsd:string", ""⟩]⟩),
     ("PingOut", ⟨"PingOut", [⟨"resp", "xsd:string", ""⟩]⟩)]
  funcs := [("Ping", c7Op)]
  soapOpNames := []

def c7ClientList : List ClientFunc :=
  [.stub "Ping" "Ping" "ctx context.Context,req string" "string,error"
    ["\"\"", "errors.New(\"not implemented\")"]]

/-- C7, witness: on the concrete unbound operation the interface is empty
while the client functions contain the stub. -/
theorem unbound_op_omitted_from_interface_but_stubbed_witness :
    (∀ f ∈ ([] : List IfaceFunc), f.opName ≠ "Ping") ∧
    (∃ inP outP, inputParams c7Ctx c7Op = .ok inP ∧ outputParams c7Ctx c7Op = .ok outP ∧
      ClientFunc.stub "Ping" (fixFuncNameConflictsTotal c7Ctx (goSymbol "Ping"))
        (inputArgs (code inP)) (String.intercalate "," (codeParams outP))
        (outP.map (fun p => wsdl2goDefault p.dataType)) ∈ c7ClientList ∧
      (outP.map (fun p => wsdl2goDefault p.dataType)).getLast?
        = some "errors.New(\"not implemented\")" ∧
      "errors.New(\"not implemented\")" ≠ "nil") :=
  unbound_op_omitted_from_interface_but_stubbed c7Ctx "b" "" "PT" "Ping" c7Op
    [] c7ClientList (by decide) rfl (by decide) rfl rfl

end Wsdlgo
